import Mathlib

/-!
Verification of the resume-analysis pipeline of this repository.

The TypeScript sources are shallowly embedded as executable Lean
definitions:

* `cleanExtractedText` (src/src/lib/pdf-parser.ts, lines 77-101): the
  text normalizer, a chain of eleven regex replacement passes, embedded
  step by step on `List Char`.
* `validatePDFFile` (src/src/lib/pdf-parser.ts, lines 109-131): PDF
  buffer validation over byte lists.
* `generateQuickScore` (src/unnamed/part_002, lines 203-232): the
  heuristic pre-scorer.
* `validateAndStructureAnalysisJS` (src/unnamed/part_002, lines 55-97):
  the response normalizer, embedded over a model `JSValue` of untyped
  JavaScript runtime values, with JavaScript property access, truthiness
  and number coercion modelled explicitly.
* `enhanceAnalysisWithJobInsights` and
  `generateRoleSpecificRecommendations` (src/unnamed/part_002, lines
  105-196) together with `PREDEFINED_JOB_ROLES` (src/unnamed/part_003):
  the role-insight enricher over the declared `ResumeAnalysis` interface
  types.
* `analyzeResume` (src/unnamed/part_002, lines 11-48): the analysis
  requester, with the external service call abstracted as a parameter.

Numbers are modelled as `Int` (the repository only ever adds, compares
and clamps integer scores); the JavaScript NaN value is represented by
`Option.none` where it can arise.
-/

/-! ### Character and string helpers (ASCII semantics of the source) -/

/-- JavaScript whitespace class `\s`, restricted to the ASCII characters
that occur in this repository (space, tab, newline, carriage return,
vertical tab, form feed). -/
def isWS (c : Char) : Bool :=
  c = ' ' || c = '\t' || c = '\n' || c = '\r' || c = '\x0b' || c = '\x0c'

/-- ASCII decimal digit test, the `\d` class. -/
def isDigitC (c : Char) : Bool := '0' ≤ c && c ≤ '9'

/-- ASCII lowercase letter, the `[a-z]` class. -/
def isLowerC (c : Char) : Bool := 'a' ≤ c && c ≤ 'z'

/-- ASCII uppercase letter, the `[A-Z]` class. -/
def isUpperC (c : Char) : Bool := 'A' ≤ c && c ≤ 'Z'

/-- JavaScript word-character class `\w`: letters, digits, underscore. -/
def isWordC (c : Char) : Bool :=
  isLowerC c || isUpperC c || isDigitC c || c = '_'

/-- ASCII lower-casing of one character, as `String.prototype.toLowerCase`
acts on the ASCII strings this repository manipulates, written as the
explicit letter table. -/
def lowChar (c : Char) : Char :=
  match c with
  | 'A' => 'a' | 'B' => 'b' | 'C' => 'c' | 'D' => 'd' | 'E' => 'e' | 'F' => 'f'
  | 'G' => 'g' | 'H' => 'h' | 'I' => 'i' | 'J' => 'j' | 'K' => 'k' | 'L' => 'l'
  | 'M' => 'm' | 'N' => 'n' | 'O' => 'o' | 'P' => 'p' | 'Q' => 'q' | 'R' => 'r'
  | 'S' => 's' | 'T' => 't' | 'U' => 'u' | 'V' => 'v' | 'W' => 'w' | 'X' => 'x'
  | 'Y' => 'y' | 'Z' => 'z'
  | c => c

/-- ASCII lower-casing of a string (`toLowerCase`). -/
def lowStr (s : String) : String := ⟨s.data.map lowChar⟩

/-- `pat` occurs at the very front of `s`. -/
def charsLead : List Char → List Char → Bool
  | [], _ => true
  | _ :: _, [] => false
  | p :: ps, c :: cs => p = c && charsLead ps cs

/-- `pat` occurs somewhere inside `s` (JavaScript `String.prototype.includes`). -/
def charsHave (s pat : List Char) : Bool :=
  match s with
  | [] => charsLead pat []
  | c :: cs => charsLead pat (c :: cs) || charsHave cs pat

/-- `String.prototype.includes` on strings. -/
def strHas (s pat : String) : Bool := charsHave s.data pat.data

/-- Drop leading JavaScript whitespace. -/
def dropWS (s : List Char) : List Char := s.dropWhile (fun c => isWS c)

/-- `String.prototype.trim`: drop whitespace from both ends. -/
def trimWS (s : List Char) : List Char :=
  ((dropWS s).reverse.dropWhile (fun c => isWS c)).reverse

/-- `trim` on strings. -/
def strTrim (s : String) : String := ⟨trimWS s.data⟩

/-! ### Text normalizer: `cleanExtractedText` (src/src/lib/pdf-parser.ts)

Each regex replacement pass of the source is embedded as one function on
`List Char`, in the exact order of the source. -/

/-- Pass 1, `.replace(/\r\n/g, '\n')`: each CRLF pair becomes one newline;
scanning resumes after a replaced pair, exactly as a global regex does. -/
def nlCRLF : List Char → List Char
  | '\r' :: '\n' :: rest => '\n' :: nlCRLF rest
  | c :: rest => c :: nlCRLF rest
  | [] => []

/-- Pass 2, `.replace(/\r/g, '\n')`. -/
def nlCR (s : List Char) : List Char :=
  s.map (fun c => if c = '\r' then '\n' else c)

/-- Pass 3, `.replace(/\n{3,}/g, '\n\n')`: a run of three or more newlines
collapses to two.  The counter `k` is the number of newlines of the
current run already emitted. -/
def collapseNL : List Char → Nat → List Char
  | [], _ => []
  | c :: rest, k =>
    if c = '\n' then
      if k < 2 then c :: collapseNL rest (k + 1) else collapseNL rest k
    else c :: collapseNL rest 0

/-- Space-or-tab test, the `[ \t]` class. -/
def isSpTab (c : Char) : Bool := c = ' ' || c = '\t'

/-- Pass 4, `.replace(/[ \t]{2,}/g, ' ')`: a run of two or more spaces or
tabs collapses to one space; a single space or tab is left as it is.
State: `pending` holds a single space/tab seen so far, `inRun` records
that the collapsing space of the current run was already emitted. -/
def collapseSP : List Char → Option Char → Bool → List Char
  | [], some p, _ => [p]
  | [], none, _ => []
  | c :: rest, some p, _ =>
    if isSpTab c then ' ' :: collapseSP rest none true
    else p :: c :: collapseSP rest none false
  | c :: rest, none, inRun =>
    if isSpTab c then
      if inRun then collapseSP rest none true
      else collapseSP rest (some c) false
    else c :: collapseSP rest none false

/-- Pass 5, `.replace(/[^\x20-\x7E\n]/g, '')`: keep only printable ASCII
and newlines. -/
def asciiOnly (s : List Char) : List Char :=
  s.filter (fun c => (0x20 ≤ c.toNat && c.toNat ≤ 0x7E) || c = '\n')

/-- A line (no newlines inside) made solely of digits and whitespace, the
content matched by `[\d\s]*` between two line boundaries. -/
def dwLine (l : List Char) : Bool := l.all (fun c => isDigitC c || isWS c)

/-- A line made solely of whitespace. -/
def wsLine (l : List Char) : Bool := l.all (fun c => isWS c)

/-- Split at newlines; a trailing newline yields a final empty line,
exactly the line structure that the multiline anchors `^`/`$` see. -/
def splitNL : List Char → List (List Char)
  | [] => [[]]
  | c :: rest =>
    if c = '\n' then [] :: splitNL rest
    else (splitNL rest).modifyHead (fun l => c :: l)

/-- Rejoin lines with newlines, the inverse of `splitNL`. -/
def joinNL : List (List Char) → List Char
  | [] => []
  | [l] => l
  | l :: ls => l ++ '\n' :: joinNL ls

mutual

/-- Pass 6 on the line list: a maximal block of consecutive digit/whitespace
lines collapses to a single empty line. -/
def dlGo : List (List Char) → List (List Char)
  | [] => []
  | l :: rest => if dwLine l then [] :: dlSkip rest else l :: dlGo rest

/-- Skips the remaining lines of a digit/whitespace block. -/
def dlSkip : List (List Char) → List (List Char)
  | [] => []
  | l :: rest => if dwLine l then dlSkip rest else l :: dlGo rest

end

/-- Pass 6, `.replace(/^\s*[\d\s]*\s*$/gm, '')`.  Because `\s` also matches
newlines, a match starting at a line start greedily consumes every
digit/whitespace character and backtracks to the last feasible `$`
(before a newline, or the end of input).  Hence each maximal block of
consecutive lines consisting only of digits and whitespace is removed
together with its inner newlines, leaving a single empty line; scanning
resumes after the match.  `dlGo` realizes exactly this on the line list. -/
def rmDigitLines (s : List Char) : List Char := joinNL (dlGo (splitNL s))

/-- Pass 7, `.replace(/([a-z])([A-Z])/g, '$1 $2')`: a space is inserted
between a lowercase and an uppercase letter; both matched characters are
consumed before scanning resumes, as in a global regex. -/
def sepLcUc : List Char → List Char
  | c1 :: c2 :: rest =>
    if isLowerC c1 && isUpperC c2 then c1 :: ' ' :: c2 :: sepLcUc rest
    else c1 :: sepLcUc (c2 :: rest)
  | s => s

/-- Pass 8, `.replace(/(\w)(\d)/g, '$1 $2')`. -/
def sepWordDigit : List Char → List Char
  | c1 :: c2 :: rest =>
    if isWordC c1 && isDigitC c2 then c1 :: ' ' :: c2 :: sepWordDigit rest
    else c1 :: sepWordDigit (c2 :: rest)
  | s => s

/-- Pass 9, `.replace(/(\d)(\w)/g, '$1 $2')`. -/
def sepDigitWord : List Char → List Char
  | c1 :: c2 :: rest =>
    if isDigitC c1 && isWordC c2 then c1 :: ' ' :: c2 :: sepDigitWord rest
    else c1 :: sepDigitWord (c2 :: rest)
  | s => s

mutual

/-- Pass 10 on interior lines: a maximal block of whitespace-only lines
strictly between two newlines collapses to a single empty line. -/
def npGo : List (List Char) → List (List Char)
  | [] => []
  | [l] => [l]
  | l :: rest => if wsLine l then [] :: npSkip rest else l :: npGo rest

/-- Skips the remaining lines of a whitespace block (the final line of the
input is never part of a match and is kept). -/
def npSkip : List (List Char) → List (List Char)
  | [] => []
  | [l] => [l]
  | l :: rest => if wsLine l then npSkip rest else l :: npGo rest

end

/-- Pass 10, `.replace(/\n\s*\n/g, '\n\n')`.  A match runs from the first
newline of a whitespace run to the last newline of that run (greedy `\s*`
backtracking to a final `\n`), so the whitespace-only lines strictly
between those two newlines are deleted and replaced by a single empty
line; the first and the last line of the input can never lie inside a
match. -/
def normPara (s : List Char) : List Char :=
  match splitNL s with
  | [] => []
  | l :: rest => joinNL (l :: npGo rest)

/-- The artifact-removal portion of `cleanExtractedText`: passes 1-6
(line-break unification, newline and space/tab collapsing, non-ASCII
removal, digit-line removal). -/
def cleanupPhase (s : List Char) : List Char :=
  rmDigitLines (asciiOnly (collapseSP (collapseNL (nlCR (nlCRLF s)) 0) none false))

/-- The word-boundary repair portion of `cleanExtractedText`: passes 7-9,
which insert separating spaces. -/
def insertPhase (s : List Char) : List Char :=
  sepDigitWord (sepWordDigit (sepLcUc s))

/-- The final portion of `cleanExtractedText`: paragraph-break
normalization and trimming (passes 10-11). -/
def finishPhase (s : List Char) : List Char := trimWS (normPara s)

/-- `cleanExtractedText` (src/src/lib/pdf-parser.ts, lines 77-101).  The
guard mirrors `if (!text || typeof text !== 'string') return ''` (an
empty string is falsy; every Lean `String` is a string). -/
def cleanExtractedText (text : String) : String :=
  if text = "" then ""
  else ⟨finishPhase (insertPhase (cleanupPhase text.data))⟩

example : cleanExtractedText "a12b" = "a 1 2b" := by decide
example : cleanExtractedText "a 1 2b" = "a 1 2 b" := by decide
example : cleanExtractedText "a1" = "a 1" := by decide
example : cleanExtractedText "abc\n123\ndef" = "abc\n\ndef" := by decide
example : cleanExtractedText "  hello\t\tworld  " = "hello world" := by decide
example : cleanExtractedText "a\n1\n1\n1\nb" = "a\n\nb" := by decide
example : cleanExtractedText "12345" = "" := by decide
example : cleanExtractedText "x\n \n \ny" = "x\n\ny" := by decide
example : cleanExtractedText "aAbB" = "a Ab B" := by decide
example : cleanExtractedText "a\r\nb\rc" = "a\nb\nc" := by decide

/-! ### PDF validation: `validatePDFFile` (src/src/lib/pdf-parser.ts) -/

/-- The three rejection messages of `validatePDFFile`.  `tooLarge` stands
for the interpolated string `File size (...MB) exceeds maximum allowed
size of ...MB` (the floating-point rendering of the size is elided),
`noContent` for `No file content received`, `badFormat` for `File is not
a valid PDF format`. -/
inductive PdfErr where
  | noContent
  | tooLarge
  | badFormat
deriving DecidableEq, Repr

/-- Result shape `{ valid: boolean; error?: string }` of `validatePDFFile`. -/
structure PdfCheck where
  valid : Bool
  error : Option PdfErr
deriving DecidableEq, Repr

/-- Node `Buffer.prototype.toString('ascii')` decodes a byte by first
clearing its high bit. -/
def asciiByte (b : Nat) : Char := Char.ofNat (b % 128)

/-- The five characters of the `%PDF-` magic marker. -/
def pdfMagic : List Char := ['%', 'P', 'D', 'F', '-']

/-- `buffer.toString('ascii', 0, 8).startsWith('%PDF-')`: the first eight
bytes are decoded with the high bit cleared and compared against the
marker. -/
def headerIsPdf (buffer : List Nat) : Bool :=
  charsLead pdfMagic ((buffer.take 8).map asciiByte)

/-- `validatePDFFile` (src/src/lib/pdf-parser.ts, lines 109-131).  A
buffer is a byte list; the size test `buffer.length / (1024 * 1024) >
maxSizeMB` is the exact integer comparison `length > maxSizeMB * 1048576`
(the double division is exact for every realistic length). -/
def validatePDFFile (buffer : List Nat) (maxSizeMB : Nat := 10) : PdfCheck :=
  if buffer.length = 0 then { valid := false, error := some .noContent }
  else if buffer.length > maxSizeMB * 1048576 then
    { valid := false, error := some .tooLarge }
  else if ¬ headerIsPdf buffer then
    { valid := false, error := some .badFormat }
  else { valid := true, error := none }

example : validatePDFFile [0x25, 0x50, 0x44, 0x46, 0x2D, 0x31] = ⟨true, none⟩ := by decide
example : validatePDFFile [0xA5, 0x50, 0x44, 0x46, 0x2D] = ⟨true, none⟩ := by decide
example : validatePDFFile [] = ⟨false, some .noContent⟩ := by decide
example : validatePDFFile [0x41, 0x42] = ⟨false, some .badFormat⟩ := by decide

/-! ### Heuristic pre-scorer: `generateQuickScore` (src/unnamed/part_002) -/

/-- Number of maximal whitespace runs in a character list; `inRun` records
that the current character extends a run already counted. -/
def countRuns : List Char → Bool → Nat
  | [], _ => 0
  | c :: rest, inRun =>
    if isWS c then
      if inRun then countRuns rest true else 1 + countRuns rest true
    else countRuns rest false

/-- `resumeContent.split(/\s+/).length`: splitting at whitespace runs
yields one token more than the number of runs (a leading or trailing run
contributes an empty token, and the empty string splits to one empty
token), so the length is `1 +` the number of runs. -/
def wordCount (s : String) : Nat := 1 + countRuns s.data false

example : wordCount "" = 1 := by decide
example : wordCount "a b c" = 3 := by decide
example : wordCount "  a b " = 4 := by decide

/-- Consume exactly `n` leading digits, returning the remainder. -/
def digitsN : Nat → List Char → Option (List Char)
  | 0, s => some s
  | _ + 1, [] => none
  | n + 1, c :: rest => if isDigitC c then digitsN n rest else none

/-- Consume one optional `[-.]` separator. -/
def optSep : List Char → List Char
  | [] => []
  | c :: rest => if c = '-' || c = '.' then rest else c :: rest

/-- The pattern `\d{3}[-.]?\d{3}[-.]?\d{4}` matches at the front of `s`.
The optional separators are deterministic: if a separator is present it
must be consumed, because the following required token is a digit. -/
def phoneAt (s : List Char) : Bool :=
  match digitsN 3 s with
  | none => false
  | some r1 =>
    match digitsN 3 (optSep r1) with
    | none => false
    | some r2 => (digitsN 4 (optSep r2)).isSome

/-- `/\d{3}[-.]?\d{3}[-.]?\d{4}/.test(content)`: the pattern matches at
some position. -/
def phoneScan : List Char → Bool
  | [] => false
  | c :: rest => phoneAt (c :: rest) || phoneScan rest

example : phoneScan "call 555-123-4567 now".data = true := by decide
example : phoneScan "555.123.4567".data = true := by decide
example : phoneScan "5551234567".data = true := by decide
example : phoneScan "55-123-4567".data = false := by decide

/-- The seven experience keywords of the scorer. -/
def expKeywords : List String :=
  ["experience", "worked", "managed", "led", "developed", "created", "achieved"]

/-- The technical-term list of the scorer (each matched with `\b` word
boundaries). -/
def techTerms : List String :=
  ["javascript", "python", "java", "sql", "excel", "project management", "leadership"]

/-- One alternative of `/\b(javascript|...)\b/g` matches at the current
position: the term leads `s`, the character before the position is not a
word character, and the character following the match is not a word
character (every term starts and ends with a word character, so these are
exactly the `\b` conditions). -/
def techAt (prev : Option Char) (s : List Char) (term : List Char) : Bool :=
  charsLead term s &&
  (match prev with | none => true | some p => ¬ isWordC p) &&
  (match (s.drop term.length).head? with | none => true | some a => ¬ isWordC a)

/-- Global scan of `/\b(javascript|python|java|sql|excel|project management|leadership)\b/g`,
counting non-overlapping matches; alternatives are tried in the order of
the source pattern at each position, and scanning resumes after a match.
The fuel argument (instantiated with the list length) only makes the
recursion structural: every step consumes at least one character, so the
fuel never runs out. -/
def techCountF : Nat → Option Char → List Char → Nat
  | 0, _, _ => 0
  | _, _, [] => 0
  | fuel + 1, prev, c :: rest =>
    match techTerms.find? (fun t => techAt prev (c :: rest) t.data) with
    | some t => 1 + techCountF fuel t.data.getLast? (rest.drop (t.data.length - 1))
    | none => techCountF fuel (some c) rest

/-- `(content.match(/\b(...)\b/g) || []).length`. -/
def techMatchCount (content : String) : Nat :=
  techCountF content.data.length none content.data

example : techMatchCount "python, sql and java" = 3 := by decide
example : techMatchCount "javascript javadoc" = 1 := by decide
example : techMatchCount "mysql" = 0 := by decide

/-- `generateQuickScore` (src/unnamed/part_002, lines 203-232).  All
additions are on natural numbers, in source order; the word count uses
the raw text while every containment test uses the lower-cased text. -/
def generateQuickScore (resumeContent : String) : Nat :=
  let content := lowStr resumeContent
  let wc := wordCount resumeContent
  let lenPts : Nat :=
    (if wc > 150 then 10 else 0) + (if wc > 300 then 10 else 0) +
    (if wc > 500 then 10 else 0)
  let contactPts : Nat :=
    (if strHas content "@" || strHas content "email" then 10 else 0) +
    (if phoneScan content.data then 10 else 0)
  let experienceMatches := (expKeywords.filter (fun k => strHas content k)).length
  let expPts : Nat := min 15 (experienceMatches * 2)
  let eduPts : Nat :=
    (if strHas content "education" || strHas content "degree" ||
        strHas content "university" then 5 else 0) +
    (if strHas content "bachelor" || strHas content "master" ||
        strHas content "phd" then 5 else 0)
  let skillPts : Nat :=
    (if strHas content "skills" || strHas content "technical" then 5 else 0) +
    min 5 (techMatchCount content)
  min 100 (lenPts + contactPts + expPts + eduPts + skillPts)

example : generateQuickScore "too short" = 0 := by decide
example : generateQuickScore "I led and developed projects" = 4 := by decide
example : generateQuickScore "email: a@b.c phone 555-123-4567" = 20 := by decide

/-! ### A model of untyped JavaScript runtime values

`validateAndStructureAnalysis` receives the parsed response of the
external service without any schema guarantee, so it is embedded over a
model of JavaScript values.  Numbers are integers, with NaN as a separate
constructor (fractional values do not occur in any score computation of
the source). -/

inductive JSValue where
  | null
  | undefined
  | bool (b : Bool)
  | num (n : Int)
  | nan
  | str (s : String)
  | arr (elems : List JSValue)
  | obj (fields : List (String × JSValue))
deriving Repr

/-- JavaScript truthiness: `null`, `undefined`, `NaN`, `false`, `0` and
the empty string are falsy; every array and object is truthy. -/
def truthy : JSValue → Bool
  | .null | .undefined | .nan => false
  | .bool b => b
  | .num n => decide (n ≠ 0)
  | .str s => decide (s ≠ "")
  | .arr _ => true
  | .obj _ => true

/-- `a || b`. -/
def jsOr (a b : JSValue) : JSValue := if truthy a then a else b

/-- First-match association lookup on an object, `undefined` when the key
is absent. -/
def fieldOf (fields : List (String × JSValue)) (k : String) : JSValue :=
  match fields.find? (fun f => f.1 = k) with
  | some f => f.2
  | none => .undefined

/-- Plain property access `v.k`: throws a TypeError on `null` and
`undefined`, yields `undefined` on every other non-object. -/
def jsGet : JSValue → String → Except String JSValue
  | .null, _ => .error "TypeError"
  | .undefined, _ => .error "TypeError"
  | .obj fields, k => .ok (fieldOf fields k)
  | _, _ => .ok .undefined

/-- Optional-chained access `v?.k`: `undefined` instead of a throw on
`null`/`undefined`. -/
def jsGetOpt (v : JSValue) (k : String) : JSValue :=
  match v with
  | .null | .undefined => .undefined
  | .obj fields => fieldOf fields k
  | _ => .undefined

/-- Integer parsing for JavaScript string-to-number coercion: optional
sign followed by decimal digits (`none` is NaN; fractional, hex and
exponent literals are outside the integer model and also map to NaN). -/
def decDigits? : List Char → Option Nat
  | [] => none
  | s => s.foldlM (fun acc c => if isDigitC c then some (acc * 10 + (c.toNat - 48)) else none) 0

/-- `ToNumber` applied to a string: surrounding whitespace is trimmed, the
empty string is `0`, otherwise an optionally signed run of digits. -/
def strToNum? (s : String) : Option Int :=
  match trimWS s.data with
  | [] => some 0
  | '-' :: ds => (decDigits? ds).map (fun n => -(n : Int))
  | '+' :: ds => (decDigits? ds).map (fun n => (n : Int))
  | ds => (decDigits? ds).map (fun n => (n : Int))

/-- The string a depth-one array element contributes to `Array.prototype.join`:
`null` and `undefined` join as empty, primitives by their string form.
Nested arrays are elided (modelled as non-numeric); no claim depends on
them. -/
def primStr : JSValue → String
  | .null | .undefined => ""
  | .bool b => if b then "true" else "false"
  | .num n => toString n
  | .nan => "NaN"
  | .str s => s
  | .arr _ => "[object]"
  | .obj _ => "[object Object]"

/-- JavaScript `ToNumber`, with `none` as NaN.  An array converts through
its joined string: the empty array is `0`, a one-element array converts
through its element string, and any longer array joins with commas and is
NaN for the integer-valued content this model covers. -/
def toNumber : JSValue → Option Int
  | .null => some 0
  | .undefined => none
  | .nan => none
  | .bool b => some (if b then 1 else 0)
  | .num n => some n
  | .str s => strToNum? s
  | .arr [] => some 0
  | .arr [v] => strToNum? (primStr v)
  | .arr (_ :: _ :: _) => none
  | .obj _ => none

/-- NaN-propagating `Math.min`. -/
def jsMinI (a b : Option Int) : Option Int :=
  match a, b with
  | some x, some y => some (min x y)
  | _, _ => none

/-- NaN-propagating `Math.max`. -/
def jsMaxI (a b : Option Int) : Option Int :=
  match a, b with
  | some x, some y => some (max x y)
  | _, _ => none

/-- `Math.max(0, Math.min(hi, v || 0))`, the clamping expression of the
response normalizer applied to a raw field value. -/
def clampTo (hi : Int) (v : JSValue) : Option Int :=
  jsMaxI (some 0) (jsMinI (some hi) (toNumber (jsOr v (.num 0))))

/-- `Array.isArray(v) ? v : []`. -/
def asArrOr (v : JSValue) : List JSValue :=
  match v with
  | .arr elems => elems
  | _ => []

/-! ### Response normalizer: `validateAndStructureAnalysis`
(src/unnamed/part_002, lines 55-97), over raw JavaScript values -/

/-- The `keyFindings` group of the normalized output; the list fields keep
the raw array elements unchanged. -/
structure KeyFindingsJS where
  strengths : List JSValue
  majorIssues : List JSValue
  missingSkills : List JSValue
  atsCompatibility : Option Int
  improvementPriority : List JSValue
deriving Repr

/-- The `jobAlignment` group of the normalized output. -/
structure JobAlignmentJS where
  matchScore : Option Int
  relevantExperience : List JSValue
  skillGaps : List JSValue
  recommendations : List JSValue
deriving Repr

/-- The normalized analysis as the source actually produces it: the three
clamped scores are numbers (or NaN), `summary` is whatever truthy value
the raw payload carried (or the fallback string), and every list field
holds the raw elements verbatim. -/
structure ResumeAnalysisJS where
  overallScore : Option Int
  maxOverallScore : Int
  summary : JSValue
  sections : List JSValue
  keyFindings : KeyFindingsJS
  jobAlignment : JobAlignmentJS
deriving Repr

/-- `validateAndStructureAnalysis` (src/unnamed/part_002, lines 55-97).
Each top-level access `rawAnalysis.x` is a plain property access and can
throw; every deeper access in the source is optional-chained
(`rawAnalysis.keyFindings?.x`, `rawAnalysis.jobAlignment?.x`) and cannot.
The repeated accesses of `rawAnalysis.keyFindings` and
`rawAnalysis.jobAlignment` in the source are pure, so they are bound
once. -/
def validateAndStructureAnalysisJS (rawAnalysis : JSValue) : Except String ResumeAnalysisJS := do
  let rawOverall ← jsGet rawAnalysis "overallScore"
  let rawSummary ← jsGet rawAnalysis "summary"
  let rawSections ← jsGet rawAnalysis "sections"
  let rawKF ← jsGet rawAnalysis "keyFindings"
  let rawJA ← jsGet rawAnalysis "jobAlignment"
  pure
    { overallScore := clampTo 100 rawOverall
      maxOverallScore := 100
      summary := jsOr rawSummary (.str "Unable to generate analysis summary.")
      sections := asArrOr rawSections
      keyFindings :=
        { strengths := asArrOr (jsGetOpt rawKF "strengths")
          majorIssues := asArrOr (jsGetOpt rawKF "majorIssues")
          missingSkills := asArrOr (jsGetOpt rawKF "missingSkills")
          atsCompatibility := clampTo 10 (jsGetOpt rawKF "atsCompatibility")
          improvementPriority := asArrOr (jsGetOpt rawKF "improvementPriority") }
      jobAlignment :=
        { matchScore := clampTo 10 (jsGetOpt rawJA "matchScore")
          relevantExperience := asArrOr (jsGetOpt rawJA "relevantExperience")
          skillGaps := asArrOr (jsGetOpt rawJA "skillGaps")
          recommendations := asArrOr (jsGetOpt rawJA "recommendations") } }

/-! ### The declared data model (src/unnamed/part_003) and the static
role catalog -/

/-- `JobRole` (src/unnamed/part_003, lines 9-14). -/
structure JobRole where
  id : String
  title : String
  category : String
  commonSkills : List String
deriving DecidableEq, Repr

/-- `ResumeSection` (src/unnamed/part_003, lines 21-29). -/
structure ResumeSection where
  name : String
  score : Int
  maxScore : Int
  feedback : List String
  suggestions : List String
  strengths : List String
  issues : List String
deriving DecidableEq, Repr

/-- The `keyFindings` group of `ResumeAnalysis` (src/unnamed/part_003,
lines 36-42). -/
structure KeyFindings where
  strengths : List String
  majorIssues : List String
  missingSkills : List String
  atsCompatibility : Int
  improvementPriority : List String
deriving DecidableEq, Repr

/-- The `jobAlignment` group of `ResumeAnalysis` (src/unnamed/part_003,
lines 43-48). -/
structure JobAlignment where
  matchScore : Int
  relevantExperience : List String
  skillGaps : List String
  recommendations : List String
deriving DecidableEq, Repr

/-- `ResumeAnalysis` (src/unnamed/part_003, lines 31-49), the declared
interface over which the enricher operates. -/
structure ResumeAnalysis where
  overallScore : Int
  maxOverallScore : Int
  summary : String
  sections : List ResumeSection
  keyFindings : KeyFindings
  jobAlignment : JobAlignment
deriving DecidableEq, Repr

/-- `PREDEFINED_JOB_ROLES` (src/unnamed/part_003, lines 71-120). -/
def PREDEFINED_JOB_ROLES : List JobRole :=
  [ { id := "data-scientist", title := "Data Scientist", category := "Technology",
      commonSkills := ["Python", "R", "SQL", "Machine Learning", "Statistics",
        "Data Visualization", "TensorFlow", "Pandas", "Numpy"] },
    { id := "product-manager", title := "Product Manager", category := "Management",
      commonSkills := ["Product Strategy", "Agile/Scrum", "User Research", "Data Analysis",
        "Stakeholder Management", "Roadmap Planning", "A/B Testing"] },
    { id := "software-engineer", title := "Software Engineer", category := "Technology",
      commonSkills := ["Programming", "JavaScript", "Python", "Git", "APIs",
        "Database Design", "Testing", "System Design", "DevOps"] },
    { id := "ux-designer", title := "UX Designer", category := "Design",
      commonSkills := ["User Research", "Wireframing", "Prototyping", "Figma",
        "Adobe Creative Suite", "Information Architecture", "Usability Testing"] },
    { id := "marketing-manager", title := "Marketing Manager", category := "Marketing",
      commonSkills := ["Digital Marketing", "Content Strategy", "SEO/SEM", "Social Media",
        "Analytics", "Campaign Management", "Brand Management"] },
    { id := "business-analyst", title := "Business Analyst", category := "Analysis",
      commonSkills := ["Requirements Analysis", "Process Mapping", "SQL", "Data Analysis",
        "Stakeholder Communication", "Project Management", "Documentation"] },
    { id := "sales-representative", title := "Sales Representative", category := "Sales",
      commonSkills := ["Lead Generation", "Customer Relationship Management", "Negotiation",
        "Sales Process", "CRM Software", "Communication", "Cold Calling"] },
    { id := "project-manager", title := "Project Manager", category := "Management",
      commonSkills := ["Project Planning", "Risk Management", "Team Leadership",
        "Agile/Scrum", "Budget Management", "Stakeholder Communication",
        "Timeline Management"] } ]

/-! ### Role-insight enricher (src/unnamed/part_002, lines 105-196) -/

/-- `jobRole.toLowerCase().replace(/\s+/g, '-')`: every maximal whitespace
run of the lower-cased title becomes one hyphen. -/
def slugChars : List Char → Bool → List Char
  | [], _ => []
  | c :: rest, inRun =>
    if isWS c then
      if inRun then slugChars rest true else '-' :: slugChars rest true
    else c :: slugChars rest false

/-- The slug derived from a job-role title. -/
def slugify (jobRole : String) : String := ⟨slugChars (lowStr jobRole).data false⟩

example : slugify "Data  Scientist" = "data-scientist" := by decide

/-- The catalog lookup of `enhanceAnalysisWithJobInsights` (lines
107-110): case-insensitive exact title match, or id equal to the slug of
the title. -/
def findRole (jobRole : String) : Option JobRole :=
  PREDEFINED_JOB_ROLES.find? (fun role =>
    lowStr role.title = lowStr jobRole || role.id = slugify jobRole)

/-- `Array.prototype.join(' ')`. -/
def joinSpace : List String → String
  | [] => ""
  | [s] => s
  | s :: rest => s ++ " " ++ joinSpace rest

/-- `Array.prototype.join(', ')`. -/
def joinComma : List String → String
  | [] => ""
  | [s] => s
  | s :: rest => s ++ ", " ++ joinComma rest

/-- Line 115: the lower-cased joined feedback of the first section whose
name contains `skill` (case-insensitively), or the empty string. -/
def skillSectionText (analysis : ResumeAnalysis) : String :=
  match analysis.sections.find? (fun sec => strHas (lowStr sec.name) "skill") with
  | some sec => lowStr (joinSpace sec.feedback)
  | none => ""

/-- `Array.from(new Set(xs))`: first occurrences in order.  `seen` holds
the values already emitted. -/
def dedupSeen : List String → List String → List String
  | [], _ => []
  | x :: rest, seen =>
    if seen.contains x then dedupSeen rest seen else x :: dedupSeen rest (x :: seen)

/-- `generateRoleSpecificRecommendations` (src/unnamed/part_002, lines
145-196): a switch on the lower-cased category builds up to two
recommendation strings, which are de-duplicated and truncated to three. -/
def generateRoleSpecificRecommendations (role : JobRole) (analysis : ResumeAnalysis) :
    List String :=
  let recommendations : List String :=
    match lowStr role.category with
    | "technology" =>
      (if analysis.overallScore < 70 then
        ["Consider adding more specific technical projects that demonstrate " ++
          joinComma (role.commonSkills.take 3) ++ " experience"]
      else []) ++
      ["Ensure your technical skills section includes both the technologies you used and the context/projects where you applied them"]
    | "management" =>
      (if analysis.keyFindings.missingSkills.any (fun skill => strHas (lowStr skill) "leadership") then
        ["Add specific examples of team leadership, project management, and stakeholder communication achievements"]
      else []) ++
      ["Quantify your management impact with team sizes, budget responsibilities, and measurable outcomes"]
    | "design" =>
      ["Include a portfolio link and mention specific design tools, methodologies, and user research experience"] ++
      (if analysis.overallScore < 75 then
        ["Highlight user-centered design processes and measurable improvements to user experience"]
      else [])
    | "marketing" =>
      ["Include specific metrics for campaigns, growth rates, and ROI to demonstrate marketing impact"] ++
      (if ¬ analysis.sections.any (fun sec => strHas (lowStr sec.name) "project") then
        ["Add a projects section showcasing successful marketing campaigns and their measurable results"]
      else [])
    | "sales" =>
      ["Quantify sales achievements with specific numbers, percentages, and quota attainment records",
       "Highlight relationship-building skills and experience with CRM systems and sales processes"]
    | "analysis" =>
      ["Emphasize analytical methodologies, data sources, and business impact of your analytical work"] ++
      (if analysis.keyFindings.missingSkills.any (fun skill => strHas (lowStr skill) "sql") then
        ["Consider adding SQL, Excel, or other data analysis tools to strengthen your technical profile"]
      else [])
    | _ => []
  (dedupSeen recommendations []).take 3

/-- `enhanceAnalysisWithJobInsights` (src/unnamed/part_002, lines
105-137).  The source mutates `analysis` in place; here the same value is
threaded: the missing-skill append happens first, and the recommendation
generator then reads the already-updated analysis, exactly as in the
source. -/
def enhanceAnalysisWithJobInsights (analysis : ResumeAnalysis) (jobRole : String) :
    ResumeAnalysis :=
  match findRole jobRole with
  | none => analysis
  | some predefinedRole =>
    let commonSkills := predefinedRole.commonSkills.map lowStr
    let resumeText := skillSectionText analysis
    let missingCommonSkills := commonSkills.filter (fun skill =>
      !(strHas resumeText (lowStr skill)) &&
      !(analysis.keyFindings.missingSkills.any (fun missing =>
          strHas (lowStr missing) (lowStr skill))))
    let a1 :=
      if missingCommonSkills.length > 0 then
        let newMissingSkills :=
          (missingCommonSkills.map (fun skill =>
            (predefinedRole.commonSkills.find? (fun cs => lowStr cs = skill)).getD skill)).filter
            (fun skill => !(analysis.keyFindings.missingSkills.contains skill))
        { analysis with keyFindings :=
            { analysis.keyFindings with
                missingSkills := analysis.keyFindings.missingSkills ++ newMissingSkills } }
      else analysis
    let roleSpecificRecommendations := generateRoleSpecificRecommendations predefinedRole a1
    { a1 with jobAlignment :=
        { a1.jobAlignment with
            recommendations := a1.jobAlignment.recommendations ++ roleSpecificRecommendations } }

/-! ### Analysis requester: `analyzeResume` (src/unnamed/part_002, lines
11-48) -/

/-- `ResumeInput` (src/unnamed/part_003, lines 3-7); the source format tag
is irrelevant to every claim about `analyzeResume`. -/
structure ResumeInput where
  content : String
  filename : Option String := none
deriving DecidableEq, Repr

/-- The fixed instruction tail of the analysis prompt
(src/src/lib/openai.ts).  Its exact wording (a JSON schema example) is
immaterial to every claim, so it is abbreviated here. -/
def analysisFormatInstructions : String :=
  "Please analyze this resume for the specified role and provide a comprehensive review in the documented JSON format."

/-- `createResumeAnalysisPrompt` (src/src/lib/openai.ts): a supplied
non-empty job description takes priority over the bare role title. -/
def createResumeAnalysisPrompt (resumeContent jobRole : String)
    (jobDescription : Option String) : String :=
  let jobContext :=
    match jobDescription with
    | some jd =>
      if jd = "" then "**Target Job Role:** " ++ jobRole ++ "\n\n"
      else "**Target Job Description:**\n" ++ jd ++ "\n\n"
    | none => "**Target Job Role:** " ++ jobRole ++ "\n\n"
  jobContext ++ "**Resume Content:**\n" ++ resumeContent ++ "\n\n**Instructions:**\n" ++
    analysisFormatInstructions

/-- `analyzeResume` (src/unnamed/part_002, lines 11-48).  The external
service (`callOpenAI`) is the parameter `ext`; `enrich` abstracts the
post-normalization enrichment applied to the raw-valued analysis (the
claims settled against this definition concern only what happens before
the external call, and hold for every `ext` and `enrich`).  The returned
flag records whether the external service was invoked; a thrown
validation error is converted by the `catch` block of the source into the
wrapped failure message. -/
def analyzeResume (ext : String → JSValue)
    (enrich : ResumeAnalysisJS → String → Except String ResumeAnalysisJS)
    (resumeInput : ResumeInput) (jobRole : String) (jobDescription : Option String) :
    Except String ResumeAnalysisJS × Bool :=
  if resumeInput.content = "" || (strTrim resumeInput.content).length < 100 then
    (.error ("Failed to analyze resume: " ++
      "Resume content is too short or empty. Please provide a complete resume."), false)
  else if jobRole = "" || (strTrim jobRole).length = 0 then
    (.error ("Failed to analyze resume: " ++ "Job role is required for targeted analysis."),
      false)
  else
    let prompt := createResumeAnalysisPrompt resumeInput.content jobRole jobDescription
    let rawAnalysis := ext prompt
    match validateAndStructureAnalysisJS rawAnalysis with
    | .error e => (.error ("Failed to analyze resume: " ++ e), true)
    | .ok analysis =>
      match enrich analysis jobRole with
      | .error e => (.error ("Failed to analyze resume: " ++ e), true)
      | .ok enhanced => (.ok enhanced, true)

/-! ### Claim-side predicates and sample values -/

/-- The value is a number within `[0, hi]` (the clamping property the
specification asserts for each score). -/
def scoreInB (v : Option Int) (hi : Int) : Bool :=
  match v with
  | some n => decide (0 ≤ n) && decide (n ≤ hi)
  | none => false

/-- A raw section element carries a numeric `score` within `[0, 10]`. -/
def sectionScoreInB (s : JSValue) : Bool :=
  match s with
  | .obj fields =>
    match fieldOf fields "score" with
    | .num n => decide (0 ≤ n) && decide (n ≤ 10)
    | _ => false
  | _ => false

/-- The clamping property claimed for the normalized analysis: overall
score in `[0, 100]`, every section score in `[0, 10]`, ATS compatibility
and match score in `[0, 10]`. -/
def claimedClampedB (a : ResumeAnalysisJS) : Bool :=
  scoreInB a.overallScore 100 && a.sections.all sectionScoreInB &&
  scoreInB a.keyFindings.atsCompatibility 10 && scoreInB a.jobAlignment.matchScore 10

/-- The missing skills the specification says a catalog match appends:
each catalog skill (in its original casing) that appears, by
case-insensitive substring test, neither in the joined feedback of the
skills section nor in any entry of the existing missing-skills list. -/
def claimMissingAdds (role : JobRole) (analysis : ResumeAnalysis) : List String :=
  role.commonSkills.filter (fun cs =>
    !(strHas (skillSectionText analysis) (lowStr cs)) &&
    !(analysis.keyFindings.missingSkills.any (fun missing =>
        strHas (lowStr missing) (lowStr cs))))

/-- A forty-word text with none of the scoring signals. -/
def lowResumeText : String := joinSpace (List.replicate 40 "z")

/-- A six-hundred-word resume text containing all seven experience
keywords, a phone number, an email address, `Bachelor of Science` and a
skills line. -/
def hiResumeText : String :=
  joinSpace (["experience", "worked", "managed", "led", "developed", "created",
    "achieved", "555-123-4567", "a@b.c", "Bachelor", "of", "Science", "Skills:",
    "Python,", "SQL"] ++ List.replicate 585 "z")

/-- A 120-character resume content with an email and an experience line,
as in the fail-fast scenario. -/
def c8Content : String :=
  "Experience: developed and led data analysis projects for clients. Contact me: jane.doe@example.com call 555-123-4567 now"

/-- A sample analysis used to instantiate the enricher theorems. -/
def sampleAnalysis : ResumeAnalysis where
  overallScore := 65
  maxOverallScore := 100
  summary := "ok"
  sections := [⟨"Skills", 6, 10, ["Strong Python and SQL knowledge"], [], [], []⟩]
  keyFindings := ⟨["Python"], [], ["Tensor"], 7, []⟩
  jobAlignment := ⟨6, [], [], ["Review the summary"]⟩

/-! ## Supporting lemmas -/

theorem lowChar_idem (c : Char) : lowChar (lowChar c) = lowChar c := by
  have h : lowChar c = c ∨ lowChar c ∈
      ['a', 'b', 'c', 'd', 'e', 'f', 'g', 'h', 'i', 'j', 'k', 'l', 'm',
       'n', 'o', 'p', 'q', 'r', 's', 't', 'u', 'v', 'w', 'x', 'y', 'z'] := by
    unfold lowChar
    split
    all_goals simp
  rcases h with h | h
  · rw [h]; exact h
  · simp only [List.mem_cons, List.not_mem_nil, or_false] at h
    rcases h with h | h | h | h | h | h | h | h | h | h | h | h | h | h | h | h |
      h | h | h | h | h | h | h | h | h | h <;> rw [h] <;> rfl

theorem lowStr_idem (s : String) : lowStr (lowStr s) = lowStr s := by
  unfold lowStr
  apply congrArg
  simp only [List.map_map]
  exact List.map_congr_left (fun c _ => lowChar_idem c)

theorem charsLead_self (s : List Char) : charsLead s s = true := by
  induction s with
  | nil => rfl
  | cons c cs ih => simp [charsLead, ih]

theorem charsHave_self (s : List Char) : charsHave s s = true := by
  cases s with
  | nil => rfl
  | cons c cs => simp [charsHave, charsLead_self]

theorem strHas_self (s : String) : strHas s s = true := charsHave_self s.data

theorem clampTo_bounds (hi : Int) (hhi : 0 ≤ hi) (v : JSValue) (n : Int)
    (h : clampTo hi v = some n) : 0 ≤ n ∧ n ≤ hi := by
  unfold clampTo at h
  cases htn : toNumber (jsOr v (.num 0)) with
  | none => rw [htn] at h; simp [jsMinI, jsMaxI] at h
  | some m =>
    rw [htn] at h
    simp only [jsMinI, jsMaxI, Option.some.injEq] at h
    subst h
    exact ⟨le_max_left 0 _, max_le hhi (min_le_left hi m)⟩

/-! Length lemmas for the text-normalizer passes. -/

theorem nlCRLF_length_le (s : List Char) : (nlCRLF s).length ≤ s.length := by
  induction s using nlCRLF.induct with
  | case1 rest ih => simp only [nlCRLF, List.length_cons]; omega
  | case2 c rest ih => simp only [nlCRLF, List.length_cons]; omega
  | case3 => simp [nlCRLF]

theorem collapseNL_length_le (s : List Char) :
    ∀ k, (collapseNL s k).length ≤ s.length := by
  induction s with
  | nil => intro k; simp [collapseNL]
  | cons c rest ih =>
    intro k
    rw [collapseNL]
    by_cases h : c = '\n' <;> simp only [h, if_true, if_false, reduceIte]
    · by_cases h2 : k < 2 <;> simp only [h2, if_true, if_false, reduceIte]
      · have := ih (k + 1); simp only [List.length_cons]; omega
      · have := ih k; simp only [List.length_cons]; omega
    · have := ih 0; simp only [List.length_cons]; omega

theorem collapseSP_length_le (s : List Char) :
    ∀ p r, (collapseSP s p r).length ≤ s.length + (if p.isSome then 1 else 0) := by
  induction s with
  | nil => intro p r; cases p <;> simp [collapseSP]
  | cons c rest ih =>
    intro p r
    cases p with
    | some p0 =>
      rw [collapseSP]
      by_cases h : isSpTab c <;> simp only [h, if_true, if_false, reduceIte]
      · have := ih none true; simp only [List.length_cons] at *; simp at this ⊢; omega
      · have := ih none false; simp only [List.length_cons] at *; simp at this ⊢; omega
    | none =>
      rw [collapseSP]
      by_cases h : isSpTab c <;> simp only [h, if_true, if_false, reduceIte]
      · by_cases h2 : r <;> simp only [h2, if_true, if_false, reduceIte]
        · have := ih none true; simp only [List.length_cons] at *; simp at this ⊢; omega
        · have := ih (some c) false; simp only [List.length_cons] at *; simp at this ⊢; omega
      · have := ih none false; simp only [List.length_cons] at *; simp at this ⊢; omega

theorem splitNL_ne_nil (s : List Char) : splitNL s ≠ [] := by
  induction s with
  | nil => simp [splitNL]
  | cons c rest ih =>
    rw [splitNL]
    by_cases h : c = '\n' <;> simp only [h, if_true, if_false, reduceIte]
    · simp
    · cases hsp : splitNL rest with
      | nil => exact absurd hsp ih
      | cons l ls => simp [List.modifyHead]

theorem joinNL_splitNL (s : List Char) : joinNL (splitNL s) = s := by
  induction s with
  | nil => rfl
  | cons c rest ih =>
    rw [splitNL]
    by_cases h : c = '\n' <;> simp only [h, if_true, if_false, reduceIte]
    · cases hsp : splitNL rest with
      | nil => exact absurd hsp (splitNL_ne_nil rest)
      | cons l ls =>
        rw [hsp] at ih
        have : joinNL ([] :: l :: ls) = [] ++ '\n' :: joinNL (l :: ls) := by simp [joinNL]
        rw [this, ih]
        rfl
    · cases hsp : splitNL rest with
      | nil => exact absurd hsp (splitNL_ne_nil rest)
      | cons l ls =>
        rw [hsp] at ih
        show joinNL ((c :: l) :: ls) = c :: rest
        cases ls with
        | nil =>
          simp only [joinNL] at ih ⊢
          rw [ih]
        | cons l2 ls2 =>
          have h1 : joinNL ((c :: l) :: l2 :: ls2) = (c :: l) ++ '\n' :: joinNL (l2 :: ls2) := by
            simp [joinNL]
          have h2 : joinNL (l :: l2 :: ls2) = l ++ '\n' :: joinNL (l2 :: ls2) := by
            simp [joinNL]
          rw [h1, List.cons_append]
          rw [h2] at ih
          rw [ih]

theorem joinNL_length_cons (l : List Char) (ls : List (List Char)) :
    (joinNL (l :: ls)).length =
      l.length + (if ls.isEmpty then 0 else 1 + (joinNL ls).length) := by
  cases ls
  · simp [joinNL]
  · simp [joinNL]; omega

theorem joinNL_length_le_cons (l : List Char) (ls : List (List Char)) :
    (joinNL ls).length ≤ (joinNL (l :: ls)).length := by
  cases ls with
  | nil => simp [joinNL]
  | cons x xs =>
    have h : joinNL (l :: x :: xs) = l ++ '\n' :: joinNL (x :: xs) := by simp [joinNL]
    rw [h]
    simp [List.length_append]
    omega

theorem joinNL_le_mono (a b : List Char) (X Y : List (List Char))
    (hab : a.length ≤ b.length)
    (hXY : (joinNL X).length ≤ (joinNL Y).length)
    (hne : X ≠ [] → Y ≠ []) :
    (joinNL (a :: X)).length ≤ (joinNL (b :: Y)).length := by
  cases X with
  | nil =>
    have h1 : joinNL [a] = a := rfl
    calc (joinNL [a]).length = a.length := by rw [h1]
      _ ≤ b.length := hab
      _ ≤ (joinNL (b :: Y)).length := by
        cases Y with
        | nil => simp [joinNL]
        | cons y ys =>
          have h2 : joinNL (b :: y :: ys) = b ++ '\n' :: joinNL (y :: ys) := by simp [joinNL]
          rw [h2]; simp [List.length_append]
  | cons x xs =>
    have hY : Y ≠ [] := hne (by simp)
    cases Y with
    | nil => exact absurd rfl hY
    | cons y ys =>
      have h1 : joinNL (a :: x :: xs) = a ++ '\n' :: joinNL (x :: xs) := by simp [joinNL]
      have h2 : joinNL (b :: y :: ys) = b ++ '\n' :: joinNL (y :: ys) := by simp [joinNL]
      rw [h1, h2]
      simp only [List.length_append, List.length_cons]
      omega

theorem dl_length_le (ls : List (List Char)) :
    (joinNL (dlGo ls)).length ≤ (joinNL ls).length ∧
    (joinNL (dlSkip ls)).length ≤ (joinNL ls).length := by
  induction ls with
  | nil => simp [dlGo, dlSkip]
  | cons l rest ih =>
    obtain ⟨ih1, ih2⟩ := ih
    constructor
    · rw [dlGo]
      by_cases h : dwLine l
      · rw [if_pos h]
        refine joinNL_le_mono [] l (dlSkip rest) rest (by simp) ih2 ?_
        intro hx hr
        rw [hr] at hx
        exact hx rfl
      · rw [if_neg h]
        refine joinNL_le_mono l l (dlGo rest) rest le_rfl ih1 ?_
        intro hx hr
        rw [hr] at hx
        exact hx rfl
    · rw [dlSkip]
      by_cases h : dwLine l
      · rw [if_pos h]
        exact le_trans ih2 (joinNL_length_le_cons l rest)
      · rw [if_neg h]
        refine joinNL_le_mono l l (dlGo rest) rest le_rfl ih1 ?_
        intro hx hr
        rw [hr] at hx
        exact hx rfl

theorem rmDigitLines_length_le (s : List Char) : (rmDigitLines s).length ≤ s.length := by
  have h := (dl_length_le (splitNL s)).1
  rw [joinNL_splitNL] at h
  exact h

theorem np_length_le (ls : List (List Char)) :
    (joinNL (npGo ls)).length ≤ (joinNL ls).length ∧
    (joinNL (npSkip ls)).length ≤ (joinNL ls).length := by
  induction ls with
  | nil => simp [npGo, npSkip]
  | cons l rest ih =>
    obtain ⟨ih1, ih2⟩ := ih
    cases rest with
    | nil => exact ⟨le_rfl, le_rfl⟩
    | cons r rs =>
      constructor
      · rw [show npGo (l :: r :: rs) =
            (if wsLine l then [] :: npSkip (r :: rs) else l :: npGo (r :: rs)) from rfl]
        by_cases h : wsLine l
        · rw [if_pos h]
          exact joinNL_le_mono [] l (npSkip (r :: rs)) (r :: rs) (by simp) ih2
            (fun _ => by simp)
        · rw [if_neg h]
          exact joinNL_le_mono l l (npGo (r :: rs)) (r :: rs) le_rfl ih1
            (fun _ => by simp)
      · rw [show npSkip (l :: r :: rs) =
            (if wsLine l then npSkip (r :: rs) else l :: npGo (r :: rs)) from rfl]
        by_cases h : wsLine l
        · rw [if_pos h]
          exact le_trans ih2 (joinNL_length_le_cons l (r :: rs))
        · rw [if_neg h]
          exact joinNL_le_mono l l (npGo (r :: rs)) (r :: rs) le_rfl ih1
            (fun _ => by simp)

theorem normPara_length_le (s : List Char) : (normPara s).length ≤ s.length := by
  rw [normPara]
  cases hsp : splitNL s with
  | nil => simp
  | cons l rest =>
    have hj : (joinNL (l :: rest)).length = s.length := by
      rw [← hsp, joinNL_splitNL]
    rw [← hj]
    refine joinNL_le_mono l l (npGo rest) rest le_rfl (np_length_le rest).1 ?_
    intro hx hr
    rw [hr] at hx
    exact hx rfl

theorem dropWhile_len_le (p : Char → Bool) (l : List Char) :
    (l.dropWhile p).length ≤ l.length := by
  induction l with
  | nil => simp
  | cons c cs ih =>
    rw [List.dropWhile_cons]
    by_cases h : p c
    · rw [if_pos h]; exact le_trans ih (by simp)
    · rw [if_neg h]

theorem trimWS_length_le (s : List Char) : (trimWS s).length ≤ s.length := by
  unfold trimWS dropWS
  calc (((s.dropWhile fun c => isWS c).reverse.dropWhile fun c => isWS c).reverse).length
      = ((s.dropWhile fun c => isWS c).reverse.dropWhile fun c => isWS c).length := by
        rw [List.length_reverse]
    _ ≤ (s.dropWhile fun c => isWS c).reverse.length := dropWhile_len_le _ _
    _ = (s.dropWhile fun c => isWS c).length := by rw [List.length_reverse]
    _ ≤ s.length := dropWhile_len_le _ _

/-! ## C3: idempotence of the text normalizer -/

/-- C3: the claim states that `cleanExtractedText` is idempotent for every
input.  The code contradicts this (and its own word-boundary repair
comments): on `"a12b"` the global `(\d)(\w)` pass resumes scanning after
the `(\w)(\d)` separation and leaves the digit-letter boundary `2b`
unseparated, so a second application still changes the text. -/
theorem cleanExtractedText_not_idempotent :
    cleanExtractedText "a12b" = "a 1 2b" ∧
    cleanExtractedText (cleanExtractedText "a12b") = "a 1 2 b" ∧
    cleanExtractedText (cleanExtractedText "a12b") ≠ cleanExtractedText "a12b" := by
  refine ⟨by decide, by decide, by decide⟩

/-! ## C4: length behaviour of the text normalizer -/

/-- C4 (counterexample): `cleanExtractedText` is not length-non-increasing:
on `"a1"` the `(\w)(\d)` pass inserts a space, growing the text from two
to three characters. -/
theorem cleanExtractedText_grows :
    cleanExtractedText "a1" = "a 1" ∧
    ¬ ((cleanExtractedText "a1").length ≤ ("a1" : String).length) := by
  refine ⟨by decide, by decide⟩

/-- C4 (amended): `cleanExtractedText` factors into the artifact-removal
passes 1-6 (`cleanupPhase`), the word-boundary space insertions
(`insertPhase`) and the paragraph/trim finish (`finishPhase`); the
cleanup and finish phases never increase length, and only the space
insertions can grow the text. -/
theorem cleanExtractedText_phase_lengths (t : String) (s : List Char) :
    cleanExtractedText t =
      (if t = "" then "" else ⟨finishPhase (insertPhase (cleanupPhase t.data))⟩) ∧
    (cleanupPhase t.data).length ≤ t.data.length ∧
    (finishPhase s).length ≤ s.length := by
  refine ⟨rfl, ?_, ?_⟩
  · unfold cleanupPhase
    calc (rmDigitLines (asciiOnly (collapseSP (collapseNL (nlCR (nlCRLF t.data)) 0) none false))).length
        ≤ (asciiOnly (collapseSP (collapseNL (nlCR (nlCRLF t.data)) 0) none false)).length :=
          rmDigitLines_length_le _
      _ ≤ (collapseSP (collapseNL (nlCR (nlCRLF t.data)) 0) none false).length := by
          unfold asciiOnly; exact List.length_filter_le _ _
      _ ≤ (collapseNL (nlCR (nlCRLF t.data)) 0).length + 0 := by
          have h := collapseSP_length_le (collapseNL (nlCR (nlCRLF t.data)) 0) none false
          simpa using h
      _ ≤ (nlCR (nlCRLF t.data)).length + 0 := by
          have h := collapseNL_length_le (nlCR (nlCRLF t.data)) 0
          omega
      _ = (nlCRLF t.data).length := by rw [Nat.add_zero]; unfold nlCR; rw [List.length_map]
      _ ≤ t.data.length := nlCRLF_length_le _
  · unfold finishPhase
    exact le_trans (trimWS_length_le _) (normPara_length_le _)

/-! ## C9: PDF validation -/

/-- C9 (counterexample): two parts of the claim fail.  A five-byte buffer
starting with `0xA5` does not begin with `%PDF-` (whose first byte is
`0x25`) yet is accepted, because the `ascii` decode clears the high bit
of every byte before the comparison.  And the empty buffer, which also
does not begin with `%PDF-`, is rejected with the no-content error rather
than the format error. -/
theorem validatePDFFile_counterexample :
    (validatePDFFile [0xA5, 0x50, 0x44, 0x46, 0x2D]).valid = true ∧
    [0xA5, 0x50, 0x44, 0x46, 0x2D] ≠ [0x25, 0x50, 0x44, 0x46, 0x2D] ∧
    validatePDFFile [] = ⟨false, some .noContent⟩ ∧
    PdfErr.noContent ≠ PdfErr.badFormat := by
  refine ⟨by decide, by decide, by decide, by decide⟩

/-- C9 (amended): with the default 10 MB ceiling, `validatePDFFile`
accepts exactly the non-empty buffers of at most `10 * 1024 * 1024` bytes
whose first five bytes equal `%PDF-` after the high bit of each byte is
cleared; the checks run in order, so the empty buffer gets the no-content
error, an oversized buffer gets the too-large error even when its header
is wrong, and only a non-empty, within-size buffer with a bad header gets
the format error. -/
theorem validatePDFFile_spec (buffer : List Nat) :
    ((validatePDFFile buffer).valid = true ↔
      buffer ≠ [] ∧ buffer.length ≤ 10485760 ∧ headerIsPdf buffer = true) ∧
    (buffer = [] → validatePDFFile buffer = ⟨false, some .noContent⟩) ∧
    (buffer ≠ [] → 10485760 < buffer.length →
      validatePDFFile buffer = ⟨false, some .tooLarge⟩) ∧
    (buffer ≠ [] → buffer.length ≤ 10485760 → headerIsPdf buffer = false →
      validatePDFFile buffer = ⟨false, some .badFormat⟩) := by
  by_cases h0 : buffer.length = 0
  · have hb : buffer = [] := List.length_eq_zero.mp h0
    subst hb
    have hr : validatePDFFile [] = ⟨false, some .noContent⟩ := rfl
    rw [hr]
    exact ⟨by simp, fun _ => rfl, fun h _ => absurd rfl h, fun h _ _ => absurd rfl h⟩
  · have hne : buffer ≠ [] := fun hb => h0 (by simp [hb])
    by_cases h1 : buffer.length > 10485760
    · have hr : validatePDFFile buffer = ⟨false, some .tooLarge⟩ := by
        unfold validatePDFFile
        rw [if_neg h0, if_pos (by omega : buffer.length > 10 * 1048576)]
      rw [hr]
      refine ⟨?_, fun hb => absurd hb hne, fun _ _ => rfl,
        fun _ hlen _ => absurd hlen (by omega)⟩
      constructor
      · intro hv; simp at hv
      · rintro ⟨-, hlen, -⟩; exact absurd hlen (by omega)
    · by_cases h2 : headerIsPdf buffer = true
      · have hr : validatePDFFile buffer = ⟨true, none⟩ := by
          unfold validatePDFFile
          rw [if_neg h0, if_neg (by omega : ¬ buffer.length > 10 * 1048576),
            if_neg (by simp [h2])]
        rw [hr]
        refine ⟨?_, fun hb => absurd hb hne, fun _ hlen => absurd hlen (by omega),
          fun _ _ hbad => by rw [h2] at hbad; cases hbad⟩
        constructor
        · intro _; exact ⟨hne, by omega, h2⟩
        · intro _; rfl
      · have h2f : headerIsPdf buffer = false := by simpa using h2
        have hr : validatePDFFile buffer = ⟨false, some .badFormat⟩ := by
          unfold validatePDFFile
          rw [if_neg h0, if_neg (by omega : ¬ buffer.length > 10 * 1048576),
            if_pos (by simp [h2f])]
        rw [hr]
        refine ⟨?_, fun hb => absurd hb hne, fun _ hlen => absurd hlen (by omega),
          fun _ _ _ => rfl⟩
        constructor
        · intro hv; simp at hv
        · rintro ⟨-, -, hhdr⟩; exact (h2 hhdr).elim

/-- C9 (witness): the four cases of the amended statement at concrete
buffers. -/
theorem validatePDFFile_spec_witness :
    (validatePDFFile [0x25, 0x50, 0x44, 0x46, 0x2D]).valid = true ∧
    validatePDFFile [] = ⟨false, some .noContent⟩ ∧
    validatePDFFile (List.replicate 10485761 0) = ⟨false, some .tooLarge⟩ ∧
    validatePDFFile [0x41] = ⟨false, some .badFormat⟩ :=
  ⟨(validatePDFFile_spec _).1.mpr ⟨by decide, by decide, by decide⟩,
   (validatePDFFile_spec ([] : List Nat)).2.1 rfl,
   (validatePDFFile_spec _).2.2.1
     (by
       intro h
       have h2 := congrArg List.length h
       simp only [List.length_replicate, List.length_nil] at h2
       omega)
     (by rw [List.length_replicate]; omega),
   (validatePDFFile_spec _).2.2.2 (by decide) (by decide) (by decide)⟩

/-! ## C1: totality of the response normalizer -/

/-- For every payload other than `null` and `undefined`, the normalizer
computes exactly this record (each top-level plain access succeeds and
agrees with the optional-chained access). -/
theorem validateAndStructure_eq (raw : JSValue) (h1 : raw ≠ .null)
    (h2 : raw ≠ .undefined) :
    validateAndStructureAnalysisJS raw = .ok
      { overallScore := clampTo 100 (jsGetOpt raw "overallScore")
        maxOverallScore := 100
        summary := jsOr (jsGetOpt raw "summary") (.str "Unable to generate analysis summary.")
        sections := asArrOr (jsGetOpt raw "sections")
        keyFindings :=
          { strengths := asArrOr (jsGetOpt (jsGetOpt raw "keyFindings") "strengths")
            majorIssues := asArrOr (jsGetOpt (jsGetOpt raw "keyFindings") "majorIssues")
            missingSkills := asArrOr (jsGetOpt (jsGetOpt raw "keyFindings") "missingSkills")
            atsCompatibility := clampTo 10 (jsGetOpt (jsGetOpt raw "keyFindings") "atsCompatibility")
            improvementPriority := asArrOr (jsGetOpt (jsGetOpt raw "keyFindings") "improvementPriority") }
        jobAlignment :=
          { matchScore := clampTo 10 (jsGetOpt (jsGetOpt raw "jobAlignment") "matchScore")
            relevantExperience := asArrOr (jsGetOpt (jsGetOpt raw "jobAlignment") "relevantExperience")
            skillGaps := asArrOr (jsGetOpt (jsGetOpt raw "jobAlignment") "skillGaps")
            recommendations := asArrOr (jsGetOpt (jsGetOpt raw "jobAlignment") "recommendations") } } := by
  cases raw
  · exact absurd rfl h1
  · exact absurd rfl h2
  all_goals rfl

/-- C1 (counterexample): the claim says the normalizer never raises for
any payload, `null` included; but `rawAnalysis.overallScore` is a plain
property access, so a `null` or `undefined` payload throws a TypeError. -/
theorem validateAndStructure_null_throws :
    validateAndStructureAnalysisJS JSValue.null = .error "TypeError" ∧
    validateAndStructureAnalysisJS JSValue.undefined = .error "TypeError" :=
  ⟨rfl, rfl⟩

/-- C1 (amended): the normalizer returns a structured analysis, without
throwing, for every payload other than `null` and `undefined` — including
the empty object, wrong-typed fields and extra unknown fields. -/
theorem validateAndStructure_total (v : JSValue) (h1 : v ≠ JSValue.null)
    (h2 : v ≠ JSValue.undefined) :
    ∃ a, validateAndStructureAnalysisJS v = .ok a :=
  ⟨_, validateAndStructure_eq v h1 h2⟩

/-- C1 (witness): the amended statement at the empty object. -/
theorem validateAndStructure_total_witness :
    ∃ a, validateAndStructureAnalysisJS (JSValue.obj []) = .ok a :=
  validateAndStructure_total (JSValue.obj []) (by simp) (by simp)

/-! ## C2: clamping of the normalized scores -/

/-- C2 (counterexample): the claimed clamping fails in two ways on one
payload: a truthy non-numeric `overallScore` (the string `high`) coerces
to NaN, which `Math.max`/`Math.min` propagate, and the `sections` array
is passed through verbatim, so a section score of `99` survives. -/
theorem validateAndStructure_clamp_counterexample :
    ∃ a, validateAndStructureAnalysisJS
        (JSValue.obj [("overallScore", .str "high"),
          ("sections", .arr [.obj [("score", .num 99)]])]) = .ok a ∧
      a.overallScore = none ∧
      a.sections = [.obj [("score", .num 99)]] ∧
      claimedClampedB a = false :=
  ⟨_, rfl, rfl, rfl, rfl⟩

/-- C2 (amended): the three top-level scores of the normalized output are
clamped into their ranges whenever they are numbers at all — a truthy
non-numeric raw field yields NaN instead — and the `sections` array is
passed through exactly as received, with no per-element clamping. -/
theorem validateAndStructure_clamps (raw : JSValue) (a : ResumeAnalysisJS)
    (h : validateAndStructureAnalysisJS raw = .ok a) :
    (∀ n, a.overallScore = some n → 0 ≤ n ∧ n ≤ 100) ∧
    (∀ n, a.keyFindings.atsCompatibility = some n → 0 ≤ n ∧ n ≤ 10) ∧
    (∀ n, a.jobAlignment.matchScore = some n → 0 ≤ n ∧ n ≤ 10) ∧
    a.sections = asArrOr (jsGetOpt raw "sections") := by
  by_cases h1 : raw = .null
  · subst h1; exact Except.noConfusion h
  by_cases h2 : raw = .undefined
  · subst h2; exact Except.noConfusion h
  rw [validateAndStructure_eq raw h1 h2] at h
  injection h with h'
  subst h'
  exact ⟨fun n hn => clampTo_bounds 100 (by norm_num) _ n hn,
    fun n hn => clampTo_bounds 10 (by norm_num) _ n hn,
    fun n hn => clampTo_bounds 10 (by norm_num) _ n hn, rfl⟩

/-- C2 (witness): the amended statement at a payload with a numeric
overall score of 150, which is clamped to 100. -/
theorem validateAndStructure_clamps_witness :
    (0 : Int) ≤ 100 ∧ (100 : Int) ≤ 100 :=
  (validateAndStructure_clamps (JSValue.obj [("overallScore", .num 150)]) _ rfl).1 100 rfl


/-! ## C5: monotonicity of the enricher -/

/-- On a catalog match the enricher only appends: some list of skills is
appended to the missing-skills list, and the role recommendations
(computed from the already-updated analysis, as the source mutates in
place) are appended to the recommendations list; every other field is
unchanged. -/
theorem enhance_eq_of_findRole (a : ResumeAnalysis) (r : String) (role : JobRole)
    (hf : findRole r = some role) :
    ∃ ns : List String,
      enhanceAnalysisWithJobInsights a r =
        ⟨a.overallScore, a.maxOverallScore, a.summary, a.sections,
         ⟨a.keyFindings.strengths, a.keyFindings.majorIssues,
          a.keyFindings.missingSkills ++ ns, a.keyFindings.atsCompatibility,
          a.keyFindings.improvementPriority⟩,
         ⟨a.jobAlignment.matchScore, a.jobAlignment.relevantExperience,
          a.jobAlignment.skillGaps,
          a.jobAlignment.recommendations ++
            generateRoleSpecificRecommendations role
              ⟨a.overallScore, a.maxOverallScore, a.summary, a.sections,
               ⟨a.keyFindings.strengths, a.keyFindings.majorIssues,
                a.keyFindings.missingSkills ++ ns, a.keyFindings.atsCompatibility,
                a.keyFindings.improvementPriority⟩,
               a.jobAlignment⟩⟩⟩ := by
  unfold enhanceAnalysisWithJobInsights
  rw [hf]
  dsimp only
  split
  · refine ⟨_, rfl⟩
  · refine ⟨[], ?_⟩
    simp only [List.append_nil]

/-- C5: the enricher never lowers the overall score (it leaves it
unchanged) and never removes an entry from any list field: every section,
finding, skill and recommendation present before enrichment is still
present afterwards. -/
theorem enhance_monotone (a : ResumeAnalysis) (r : String) :
    a.overallScore ≤ (enhanceAnalysisWithJobInsights a r).overallScore ∧
    (∀ x, x ∈ a.sections → x ∈ (enhanceAnalysisWithJobInsights a r).sections) ∧
    (∀ x, x ∈ a.keyFindings.strengths →
      x ∈ (enhanceAnalysisWithJobInsights a r).keyFindings.strengths) ∧
    (∀ x, x ∈ a.keyFindings.majorIssues →
      x ∈ (enhanceAnalysisWithJobInsights a r).keyFindings.majorIssues) ∧
    (∀ x, x ∈ a.keyFindings.missingSkills →
      x ∈ (enhanceAnalysisWithJobInsights a r).keyFindings.missingSkills) ∧
    (∀ x, x ∈ a.keyFindings.improvementPriority →
      x ∈ (enhanceAnalysisWithJobInsights a r).keyFindings.improvementPriority) ∧
    (∀ x, x ∈ a.jobAlignment.relevantExperience →
      x ∈ (enhanceAnalysisWithJobInsights a r).jobAlignment.relevantExperience) ∧
    (∀ x, x ∈ a.jobAlignment.skillGaps →
      x ∈ (enhanceAnalysisWithJobInsights a r).jobAlignment.skillGaps) ∧
    (∀ x, x ∈ a.jobAlignment.recommendations →
      x ∈ (enhanceAnalysisWithJobInsights a r).jobAlignment.recommendations) := by
  cases hf : findRole r with
  | none =>
    have heq : enhanceAnalysisWithJobInsights a r = a := by
      unfold enhanceAnalysisWithJobInsights
      rw [hf]
    rw [heq]
    exact ⟨le_rfl, fun x h => h, fun x h => h, fun x h => h, fun x h => h,
      fun x h => h, fun x h => h, fun x h => h, fun x h => h⟩
  | some role =>
    obtain ⟨ns, heq⟩ := enhance_eq_of_findRole a r role hf
    rw [heq]
    exact ⟨le_rfl, fun x h => h, fun x h => h, fun x h => h,
      fun x h => List.mem_append_left _ h, fun x h => h, fun x h => h, fun x h => h,
      fun x h => List.mem_append_left _ h⟩

/-- C5 (witness): the monotonicity statement at a concrete analysis and
the role title `Data Scientist`. -/
theorem enhance_monotone_witness :
    sampleAnalysis.overallScore ≤
      (enhanceAnalysisWithJobInsights sampleAnalysis "Data Scientist").overallScore ∧
    "Tensor" ∈ (enhanceAnalysisWithJobInsights sampleAnalysis
      "Data Scientist").keyFindings.missingSkills ∧
    "Review the summary" ∈ (enhanceAnalysisWithJobInsights sampleAnalysis
      "Data Scientist").jobAlignment.recommendations :=
  ⟨(enhance_monotone sampleAnalysis "Data Scientist").1,
   (enhance_monotone sampleAnalysis "Data Scientist").2.2.2.2.1 "Tensor" (by decide),
   (enhance_monotone sampleAnalysis "Data Scientist").2.2.2.2.2.2.2.2 "Review the summary"
     (by decide)⟩

/-! ## C10: role-specific recommendations -/

/-- After de-duplication the generated list still starts with its first
element, so truncation to three keeps at least one entry. -/
theorem one_le_take3_dedup (x : String) (l : List String) :
    1 ≤ ((dedupSeen (x :: l) []).take 3).length := by
  have h : dedupSeen (x :: l) [] = x :: dedupSeen l [x] := rfl
  rw [h, List.length_take]
  simp only [List.length_cons]
  omega

/-- Each of the six category branches pushes at least one unconditional
recommendation and at most two in total, so after de-duplication and
truncation the generator returns between one and three strings for every
catalog role and every analysis. -/
theorem genRecs_bounds (role : JobRole) (hmem : role ∈ PREDEFINED_JOB_ROLES)
    (analysis : ResumeAnalysis) :
    1 ≤ (generateRoleSpecificRecommendations role analysis).length ∧
    (generateRoleSpecificRecommendations role analysis).length ≤ 3 := by
  refine ⟨?_, List.length_take_le _ _⟩
  simp only [PREDEFINED_JOB_ROLES, List.mem_cons, List.not_mem_nil, or_false] at hmem
  rcases hmem with h | h | h | h | h | h | h | h <;> subst h
  · by_cases hc : analysis.overallScore < 70
    · rw [generateRoleSpecificRecommendations, if_pos hc]
      exact one_le_take3_dedup _ _
    · rw [generateRoleSpecificRecommendations, if_neg hc]
      exact one_le_take3_dedup _ _
  · by_cases hc : analysis.keyFindings.missingSkills.any
        (fun skill => strHas (lowStr skill) "leadership") = true
    · rw [generateRoleSpecificRecommendations, if_pos hc]
      exact one_le_take3_dedup _ _
    · rw [generateRoleSpecificRecommendations, if_neg hc]
      exact one_le_take3_dedup _ _
  · by_cases hc : analysis.overallScore < 70
    · rw [generateRoleSpecificRecommendations, if_pos hc]
      exact one_le_take3_dedup _ _
    · rw [generateRoleSpecificRecommendations, if_neg hc]
      exact one_le_take3_dedup _ _
  · exact one_le_take3_dedup _ _
  · exact one_le_take3_dedup _ _
  · exact one_le_take3_dedup _ _
  · exact one_le_take3_dedup _ _
  · by_cases hc : analysis.keyFindings.missingSkills.any
        (fun skill => strHas (lowStr skill) "leadership") = true
    · rw [generateRoleSpecificRecommendations, if_pos hc]
      exact one_le_take3_dedup _ _
    · rw [generateRoleSpecificRecommendations, if_neg hc]
      exact one_le_take3_dedup _ _

/-- C10: on any catalog match the generator yields between one and three
recommendation strings (each branch pushes one unconditionally, the
result is de-duplicated and truncated to three), so enrichment appends at
least one and at most three entries and the recommendations list strictly
grows. -/
theorem enhance_recommendation_counts (a : ResumeAnalysis) (r : String) (role : JobRole)
    (hf : findRole r = some role) :
    (∀ b : ResumeAnalysis, 1 ≤ (generateRoleSpecificRecommendations role b).length ∧
      (generateRoleSpecificRecommendations role b).length ≤ 3) ∧
    a.jobAlignment.recommendations.length <
      (enhanceAnalysisWithJobInsights a r).jobAlignment.recommendations.length ∧
    (enhanceAnalysisWithJobInsights a r).jobAlignment.recommendations.length ≤
      a.jobAlignment.recommendations.length + 3 := by
  have hmem := List.mem_of_find?_eq_some hf
  have hb := fun b => genRecs_bounds role hmem b
  obtain ⟨ns, heq⟩ := enhance_eq_of_findRole a r role hf
  rw [heq]
  refine ⟨hb, ?_, ?_⟩
  · simp only [List.length_append]
    exact Nat.lt_add_of_pos_right (Nat.lt_of_lt_of_le Nat.zero_lt_one (hb _).1)
  · simp only [List.length_append]
    exact Nat.add_le_add_left ((hb _).2) _

/-- C10 (witness): the growth bounds at a concrete analysis and the role
title `Data Scientist`. -/
theorem enhance_recommendation_counts_witness :
    sampleAnalysis.jobAlignment.recommendations.length <
      (enhanceAnalysisWithJobInsights sampleAnalysis
        "Data Scientist").jobAlignment.recommendations.length ∧
    (enhanceAnalysisWithJobInsights sampleAnalysis
        "Data Scientist").jobAlignment.recommendations.length ≤
      sampleAnalysis.jobAlignment.recommendations.length + 3 :=
  ⟨(enhance_recommendation_counts sampleAnalysis "Data Scientist"
      ⟨"data-scientist", "Data Scientist", "Technology",
       ["Python", "R", "SQL", "Machine Learning", "Statistics", "Data Visualization",
        "TensorFlow", "Pandas", "Numpy"]⟩ (by decide)).2.1,
   (enhance_recommendation_counts sampleAnalysis "Data Scientist"
      ⟨"data-scientist", "Data Scientist", "Technology",
       ["Python", "R", "SQL", "Machine Learning", "Statistics", "Data Visualization",
        "TensorFlow", "Pandas", "Numpy"]⟩ (by decide)).2.2⟩

/-! ## C6: catalog lookup and missing-skill detection -/

theorem filter_map_low (l : List String) (p : String → Bool) :
    (l.map lowStr).filter p = (l.filter (fun cs => p (lowStr cs))).map lowStr := by
  induction l with
  | nil => rfl
  | cons c cl ih =>
    by_cases h : p (lowStr c)
    · simp [List.filter_cons, h, ih]
    · simp [List.filter_cons, h, ih]

/-- With pairwise distinct lower-casings, mapping a lower-cased skill back
through `find?` recovers the original catalog casing. -/
theorem find_back_eq (l : List String) (hnd : (l.map lowStr).Nodup) :
    ∀ cs ∈ l, ((l.find? (fun x => lowStr x = lowStr cs)).getD (lowStr cs)) = cs := by
  induction l with
  | nil => intro cs h; cases h
  | cons c cl ih =>
    intro cs hcs
    by_cases h : lowStr c = lowStr cs
    · rcases List.mem_cons.mp hcs with rfl | hmem
      · simp [List.find?_cons]
      · exfalso
        have hin : lowStr cs ∈ cl.map lowStr := List.mem_map_of_mem _ hmem
        rw [← h] at hin
        exact (List.nodup_cons.mp (by simpa using hnd)).1 hin
    · rcases List.mem_cons.mp hcs with rfl | hmem
      · exact absurd rfl h
      · have ihr := ih (List.nodup_cons.mp (by simpa using hnd)).2 cs hmem
        simpa [List.find?_cons, h] using ihr

/-- C6: the enricher looks the title up by case-insensitive exact match or
by hyphenated slug (`data scientist` matches the `data-scientist` entry);
with no match the analysis is returned unchanged; on a match exactly
those catalog skills are appended to `keyFindings.missingSkills` that
appear (case-insensitive substring test) neither in the joined feedback
of the skills-named section nor in any existing missing-skills entry. -/
theorem enhance_skill_lookup :
    (∃ role, findRole "data scientist" = some role ∧ role.id = "data-scientist") ∧
    (∀ a r, findRole r = none → enhanceAnalysisWithJobInsights a r = a) ∧
    (∀ a r role, findRole r = some role →
      (enhanceAnalysisWithJobInsights a r).keyFindings.missingSkills =
        a.keyFindings.missingSkills ++ claimMissingAdds role a) := by
  refine ⟨⟨⟨"data-scientist", "Data Scientist", "Technology",
    ["Python", "R", "SQL", "Machine Learning", "Statistics", "Data Visualization",
     "TensorFlow", "Pandas", "Numpy"]⟩, by decide, rfl⟩, ?_, ?_⟩
  · intro a r hf
    unfold enhanceAnalysisWithJobInsights
    rw [hf]
  · intro a r role hf
    have hmem := List.mem_of_find?_eq_some hf
    have hnd : (role.commonSkills.map lowStr).Nodup := by
      simp only [PREDEFINED_JOB_ROLES, List.mem_cons, List.not_mem_nil, or_false] at hmem
      rcases hmem with h | h | h | h | h | h | h | h <;> subst h <;> decide
    have hcongr : role.commonSkills.filter
        (fun cs => !(strHas (skillSectionText a) (lowStr (lowStr cs))) &&
          !(a.keyFindings.missingSkills.any (fun missing =>
            strHas (lowStr missing) (lowStr (lowStr cs))))) =
        claimMissingAdds role a := by
      unfold claimMissingAdds
      refine List.filter_congr ?_
      intro cs _
      rw [lowStr_idem]
    unfold enhanceAnalysisWithJobInsights
    rw [hf]
    dsimp only
    split
    · dsimp only
      congr 1
      rw [filter_map_low, List.map_map]
      have hback : (role.commonSkills.filter
          (fun cs => !(strHas (skillSectionText a) (lowStr (lowStr cs))) &&
            !(a.keyFindings.missingSkills.any (fun missing =>
              strHas (lowStr missing) (lowStr (lowStr cs)))))).map
            ((fun skill => (role.commonSkills.find? (fun x => lowStr x = skill)).getD skill) ∘
              lowStr) =
          (role.commonSkills.filter
            (fun cs => !(strHas (skillSectionText a) (lowStr (lowStr cs))) &&
              !(a.keyFindings.missingSkills.any (fun missing =>
                strHas (lowStr missing) (lowStr (lowStr cs)))))).map id := by
        refine List.map_eq_map_iff.mpr ?_
        intro cs hc
        exact find_back_eq role.commonSkills hnd cs (List.mem_of_mem_filter hc)
      rw [hback, List.map_id, hcongr]
      refine List.filter_eq_self.mpr ?_
      intro cs hcs
      unfold claimMissingAdds at hcs
      rw [List.mem_filter] at hcs
      obtain ⟨-, hp⟩ := hcs
      rw [Bool.and_eq_true, Bool.not_eq_eq_eq_not, Bool.not_eq_eq_eq_not] at hp
      simp only [Bool.not_true] at hp
      obtain ⟨-, hany⟩ := hp
      rw [List.any_eq_false] at hany
      have hcontains : a.keyFindings.missingSkills.contains cs = false := by
        by_contra hne
        have htrue : a.keyFindings.missingSkills.contains cs = true :=
          eq_true_of_ne_false hne
        have hmem2 : cs ∈ a.keyFindings.missingSkills :=
          List.mem_of_elem_eq_true htrue
        exact absurd (strHas_self (lowStr cs)) (hany cs hmem2)
      rw [hcontains]
      rfl
    · rename_i hc
      have hnil : ((role.commonSkills.map lowStr).filter
          (fun skill => !(strHas (skillSectionText a) (lowStr skill)) &&
            !(a.keyFindings.missingSkills.any (fun missing =>
              strHas (lowStr missing) (lowStr skill))))) = [] := by
        by_contra hne
        have hpos : 0 < ((role.commonSkills.map lowStr).filter
            (fun skill => !(strHas (skillSectionText a) (lowStr skill)) &&
              !(a.keyFindings.missingSkills.any (fun missing =>
                strHas (lowStr missing) (lowStr skill))))).length :=
          List.length_pos.mpr hne
        exact hc hpos
      rw [filter_map_low] at hnil
      have hnil2 := List.map_eq_nil_iff.mp hnil
      rw [hcongr] at hnil2
      rw [hnil2, List.append_nil]

/-- C6 (witness): the missing-skill append at a concrete analysis and the
lower-case title `data scientist`. -/
theorem enhance_skill_lookup_witness :
    (enhanceAnalysisWithJobInsights sampleAnalysis "data scientist").keyFindings.missingSkills =
      sampleAnalysis.keyFindings.missingSkills ++
        claimMissingAdds ⟨"data-scientist", "Data Scientist", "Technology",
          ["Python", "R", "SQL", "Machine Learning", "Statistics", "Data Visualization",
           "TensorFlow", "Pandas", "Numpy"]⟩ sampleAnalysis :=
  enhance_skill_lookup.2.2 sampleAnalysis "data scientist" _ (by decide)

/-! ## C7: the heuristic pre-scorer -/

theorem techCountF_zero : ∀ (fuel : Nat) (prev : Option Char) (s : List Char),
    (∀ t ∈ techTerms, charsHave s t.data = false) → techCountF fuel prev s = 0 := by
  intro fuel
  induction fuel with
  | zero => intro prev s h; cases s <;> rfl
  | succ n ih =>
    intro prev s h
    cases s with
    | nil => rfl
    | cons c rest =>
      rw [techCountF]
      have hfind : techTerms.find? (fun t => techAt prev (c :: rest) t.data) = none := by
        rw [List.find?_eq_none]
        intro t ht
        have hch := h t ht
        rw [show charsHave (c :: rest) t.data =
            (charsLead t.data (c :: rest) || charsHave rest t.data) from rfl] at hch
        have h1 := (Bool.or_eq_false_iff.mp hch).1
        unfold techAt
        simp [h1]
      rw [hfind]
      refine ih (some c) rest ?_
      intro t ht
      have hch := h t ht
      rw [show charsHave (c :: rest) t.data =
          (charsLead t.data (c :: rest) || charsHave rest t.data) from rfl] at hch
      exact (Bool.or_eq_false_iff.mp hch).2

/-- C7: the quick score is clamped to at most 100 (it is a sum of
non-negative contributions, so it lies in `[0, 100]`); a forty-word text
with no email or `@`, no phone-shaped digit group and none of the rubric
keywords scores below 20 (in fact 0); and a six-hundred-word text with an
`@`, a phone match, at least four experience keywords, `bachelor` and
`skills` scores at least 60. -/
theorem generateQuickScore_spec :
    (∀ t : String, generateQuickScore t ≤ 100) ∧
    (∀ t : String, wordCount t = 40 →
      (∀ k ∈ (["@", "email", "education", "degree", "university", "bachelor",
        "master", "phd", "skills", "technical"] ++ expKeywords ++ techTerms),
        strHas (lowStr t) k = false) →
      phoneScan (lowStr t).data = false →
      generateQuickScore t < 20) ∧
    (∀ t : String, wordCount t = 600 →
      strHas (lowStr t) "@" = true →
      phoneScan (lowStr t).data = true →
      4 ≤ (expKeywords.filter (fun k => strHas (lowStr t) k)).length →
      strHas (lowStr t) "bachelor" = true →
      strHas (lowStr t) "skills" = true →
      60 ≤ generateQuickScore t) := by
  refine ⟨fun t => Nat.min_le_left _ _, ?_, ?_⟩
  · intro t hwc hk hph
    have h1 : strHas (lowStr t) "@" = false := hk "@" (by simp)
    have h2 : strHas (lowStr t) "email" = false := hk "email" (by simp)
    have h3 : strHas (lowStr t) "education" = false := hk "education" (by simp)
    have h4 : strHas (lowStr t) "degree" = false := hk "degree" (by simp)
    have h5 : strHas (lowStr t) "university" = false := hk "university" (by simp)
    have h6 : strHas (lowStr t) "bachelor" = false := hk "bachelor" (by simp)
    have h7 : strHas (lowStr t) "master" = false := hk "master" (by simp)
    have h8 : strHas (lowStr t) "phd" = false := hk "phd" (by simp)
    have h9 : strHas (lowStr t) "skills" = false := hk "skills" (by simp)
    have h10 : strHas (lowStr t) "technical" = false := hk "technical" (by simp)
    have hexp : expKeywords.filter (fun k => strHas (lowStr t) k) = [] := by
      rw [List.filter_eq_nil_iff]
      intro k hkmem
      rw [hk k (List.mem_append.mpr (Or.inl (List.mem_append.mpr (Or.inr hkmem))))]
      simp
    have htech : techMatchCount (lowStr t) = 0 :=
      techCountF_zero _ none _
        (fun tt htt => hk tt (List.mem_append.mpr (Or.inr htt)))
    unfold generateQuickScore techMatchCount at *
    simp only [hwc, h1, h2, h3, h4, h5, h6, h7, h8, h9, h10, hexp, hph, htech]
    decide
  · intro t hwc hat hph hkey hbach hskills
    unfold generateQuickScore
    simp only [hwc, hat, hph, hbach, hskills, Bool.true_or, Bool.or_true]
    simp only [Nat.min_def]
    split_ifs <;> omega

set_option maxRecDepth 8000 in
/-- C7 (witness): the score bounds at the two concrete texts. -/
theorem generateQuickScore_spec_witness :
    generateQuickScore lowResumeText < 20 ∧ 60 ≤ generateQuickScore hiResumeText :=
  ⟨generateQuickScore_spec.2.1 lowResumeText (by decide) (by decide) (by decide),
   generateQuickScore_spec.2.2 hiResumeText (by decide) (by decide) (by decide)
     (by decide) (by decide) (by decide)⟩

/-! ## C8: fail-fast validation of the analysis requester -/

/-- C8: whenever the trimmed resume text is shorter than 100 characters or
the job role is empty after trimming, `analyzeResume` fails with the
invalid-input error thrown before the prompt is even built, and the
external service is never invoked — for every external service and every
post-processing. -/
theorem analyzeResume_fails_fast (ext : String → JSValue)
    (enrich : ResumeAnalysisJS → String → Except String ResumeAnalysisJS)
    (input : ResumeInput) (jobRole : String) (jd : Option String)
    (h : (strTrim input.content).length < 100 ∨ (strTrim jobRole).length = 0) :
    (analyzeResume ext enrich input jobRole jd).2 = false ∧
    ∃ msg, (analyzeResume ext enrich input jobRole jd).1 = Except.error msg := by
  unfold analyzeResume
  rcases h with h | h
  · rw [if_pos (by simp [h])]
    exact ⟨rfl, _, rfl⟩
  · split
    · exact ⟨rfl, _, rfl⟩
    · rw [if_pos (by simp [h])]
      exact ⟨rfl, _, rfl⟩

/-- C8 (witness): a 120-character content with an email and an experience
line but an empty job role is rejected without the external call. -/
theorem analyzeResume_fails_fast_witness :
    c8Content.length = 120 ∧
    (analyzeResume (fun _ => JSValue.null) (fun a _ => Except.ok a)
      ⟨c8Content, none⟩ "" none).2 = false ∧
    ∃ msg, (analyzeResume (fun _ => JSValue.null) (fun a _ => Except.ok a)
      ⟨c8Content, none⟩ "" none).1 = Except.error msg :=
  ⟨by decide,
   (analyzeResume_fails_fast _ _ _ _ _ (Or.inr (by decide))).1,
   (analyzeResume_fails_fast _ _ _ _ _ (Or.inr (by decide))).2⟩
